import Mathlib

/-!
Verification of the binary sequence decoder and wavelength-calibration
routines of `binviewer.py` (HYPERNETS binary_viewer).

The byte buffer read from a `.spe` file is modelled as a `List ℕ` of byte
values.  The chunk-splitting loop of
`MainWindow.on_sequenceList_currentChanged` (binviewer.py, lines 271-283)

    filesize = len(raw)
    byte_pointer = 0
    self.spectra_list = []
    while filesize - byte_pointer:
        chunk_size = struct.unpack('<H', raw[byte_pointer:byte_pointer+2])[0]
        chunk_body = raw[byte_pointer:byte_pointer+chunk_size]
        spectrum = Spectrum.parse_raw(chunk_body)
        byte_pointer += chunk_size
        self.spectra_list.append(spectrum)

is embedded as the fuel-indexed recursion `load_spectra_loop`: `none` models
the Python `while` loop not finishing within `fuel` iterations,
`some (records, some e)` models the loop raising an uncaught exception `e`
with `records` the content of `self.spectra_list` accumulated so far, and
`some (records, none)` a normal exit of the loop.

The external `Spectrum.parse_raw` (module `spectrum`, which is not part of
this repository's sources) can fail: per spec §4.2 the decoder returns a
record or a decode error (`InsufficientBytes` when the chunk is shorter
than the fixed header size or than `header_size + pixel_count*2`,
`UnknownEnumValue` for an unrecognized enum code), and since line 287
dereferences `spectrum.header.timestamp` unconditionally, a failure must be
a raised exception, which aborts the loop (there is no `try`/`except`).
The loop is therefore parameterized by a predicate `parse_ok` giving the
set of chunk slices the decoder accepts; per spec §5 the decoder is a pure
function of the chunk bytes, so the record appended for an accepted chunk
is identified with the chunk itself (offset, declared size and bytes) —
this loses nothing relevant to the record counts, order and content the
claims below speak about.  The concrete spec-modelled instance of
`parse_ok` is `parse_raw_ok` below.
-/

namespace BinViewer

/-- One chunk slice, as produced by `raw[byte_pointer:byte_pointer+chunk_size]`
in the source: its offset (the value of `byte_pointer` when it was cut), the
declared `chunk_size`, and the bytes of the (possibly saturated) Python
slice. -/
structure Chunk where
  offset : ℕ
  size : ℕ
  data : List ℕ
deriving DecidableEq, Repr

/-- Failure of the loading loop.  `truncated` is the `struct.error` raised
by `struct.unpack('<H', raw[p:p+2])` when the slice holds fewer than 2 bytes
(the spec's `TruncatedLengthPrefix`); `decodeError` is an uncaught exception
raised inside `Spectrum.parse_raw` (the spec's `InsufficientBytes` /
`UnknownEnumValue` decode failures); `malformed` is the spec's
`MalformedChunk` taxon, carried here so that claims about it can be stated —
the source contains no check that could ever produce it. -/
inductive SplitError where
  | truncated
  | decodeError
  | malformed
deriving DecidableEq, Repr

/-- The unsigned little-endian 16-bit integer formed by the two bytes at
offset `p` (missing bytes read as 0).  This is the word the spec's cursor
algorithm reads at the cursor ("Read the next 2 bytes at the cursor as an
unsigned little-endian 16-bit integer"). -/
def u16le (raw : List ℕ) (p : ℕ) : ℕ :=
  (raw[p]?).getD 0 + 256 * (raw[p + 1]?).getD 0

/-- Models `struct.unpack('<H', raw[p:p+2])[0]`: the unsigned little-endian
16-bit integer at offset `p`, or `none` (a `struct.error`) when the Python
slice `raw[p:p+2]` holds fewer than 2 bytes. -/
def readU16 (raw : List ℕ) (p : ℕ) : Option ℕ :=
  match raw.drop p with
  | b0 :: b1 :: _ => some (b0 + 256 * b1)
  | _ => none

/-- The `while filesize - byte_pointer:` loop of
`on_sequenceList_currentChanged`.  The Python loop condition
`filesize - byte_pointer` is truthy exactly when `byte_pointer ≠ filesize`
(in particular the loop keeps running when `byte_pointer` has overshot the
end of the buffer).  Each iteration, in source order: unpack the 2-byte
length prefix (a short slice raises `struct.error`, aborting the loop with
`truncated`); cut `chunk_body`; run `Spectrum.parse_raw(chunk_body)`, whose
success is given by the `parse_ok` parameter (a rejected chunk raises,
aborting the loop with `decodeError`, the pointer not yet advanced and
nothing appended); advance `byte_pointer`; append the record.  `fuel`
bounds the number of iterations; `none` means the loop has not exited
within `fuel` iterations. -/
def load_spectra_loop (parse_ok : List ℕ → Bool) (raw : List ℕ) :
    ℕ → ℕ → List Chunk → Option (List Chunk × Option SplitError)
  | 0, _, _ => none
  | fuel + 1, byte_pointer, spectra_list =>
    if raw.length = byte_pointer then
      some (spectra_list, none)
    else
      match readU16 raw byte_pointer with
      | none => some (spectra_list, some SplitError.truncated)
      | some chunk_size =>
        if parse_ok ((raw.drop byte_pointer).take chunk_size) then
          load_spectra_loop parse_ok raw fuel (byte_pointer + chunk_size)
            (spectra_list ++
              [⟨byte_pointer, chunk_size, (raw.drop byte_pointer).take chunk_size⟩])
        else
          some (spectra_list, some SplitError.decodeError)

/-- Loading the spectra of one sequence file: the loop started with
`byte_pointer = 0` and `self.spectra_list = []`. -/
def load_spectra (parse_ok : List ℕ → Bool) (raw : List ℕ) (fuel : ℕ) :
    Option (List Chunk × Option SplitError) :=
  load_spectra_loop parse_ok raw fuel 0 []

/-- Modelled from the spec: the success condition of `Spectrum.parse_raw`
(module `spectrum`, absent from `src/`), §4.2/§6/§8.  A chunk decodes only
if it is at least as long as the fixed header — 40 bytes including the
2-byte length prefix, the header-only chunk length fixed by §8's scenario
("chunk 1 has length 40 (header only, 0 pixels)") — and holds the
`pixel_count`-many 2-byte body samples its header declares; `pixel_count`
occupies the two bytes at offset 22, determined by the fixed trailing
widths of §6 (pixel_count 2, temperature 4, accel_stats 12, body at 40).
Shorter chunks raise the spec's `InsufficientBytes`.  Enum-code validation
(`UnknownEnumValue`) is not modelled: the spec gives no code tables, and no
claim settled here depends on it — theorems needing decode success take
the accepted set as a hypothesis. -/
def parse_raw_ok (chunk : List ℕ) : Bool :=
  40 ≤ chunk.length && 40 + 2 * u16le chunk 22 ≤ chunk.length

/-- A §8-style header-only chunk: declared length 40, `pixel_count = 0`
(bytes 22–23), every other header byte zero. -/
def headerOnlyChunk : List ℕ :=
  40 :: 0 :: List.replicate 38 0

/-- Modelled from the spec: the cursor algorithm of §4.1 on a well-formed
buffer.  `SpecSpans raw p spans` states that, starting from cursor `p`, the
length prefix `n` read at each cursor position satisfies `2 ≤ n` and
`cursor + n ≤ raw.length`, repeated advancement by `n` lands exactly on the
buffer end, and `spans` is the list of emitted spans `[cursor, cursor+n)`
recorded as `(cursor, n)` pairs, in cursor order. -/
inductive SpecSpans (raw : List ℕ) : ℕ → List (ℕ × ℕ) → Prop where
  | done : SpecSpans raw raw.length []
  | step (p n : ℕ) (rest : List (ℕ × ℕ)) (hp : p + 2 ≤ raw.length)
      (hn : n = u16le raw p) (h2 : 2 ≤ n) (hfit : p + n ≤ raw.length)
      (ht : SpecSpans raw (p + n) rest) : SpecSpans raw p ((p, n) :: rest)

/-- The chunk the source's loop cuts for the span `(cursor, n)`. -/
def chunkOfSpan (raw : List ℕ) (s : ℕ × ℕ) : Chunk :=
  ⟨s.1, s.2, (raw.drop s.1).take s.2⟩

theorem readU16_of_le (raw : List ℕ) (p : ℕ) (h : p + 2 ≤ raw.length) :
    readU16 raw p = some (u16le raw p) := by
  have hl : 2 ≤ (raw.drop p).length := by
    rw [List.length_drop]; omega
  cases hcase : raw.drop p with
  | nil => rw [hcase] at hl; simp at hl
  | cons b0 t =>
    cases t with
    | nil => rw [hcase] at hl; simp at hl
    | cons b1 t2 =>
      have h0 : raw[p]? = some b0 := by
        have hh := List.getElem?_drop raw p 0
        rw [hcase] at hh; simpa using hh.symm
      have h1 : raw[p + 1]? = some b1 := by
        have hh := List.getElem?_drop raw p 1
        rw [hcase] at hh; simpa using hh.symm
      simp [readU16, hcase, u16le, h0, h1]

theorem readU16_some_le {raw : List ℕ} {p n : ℕ}
    (h : readU16 raw p = some n) : p + 2 ≤ raw.length := by
  by_contra hc
  push_neg at hc
  have hl : (raw.drop p).length < 2 := by
    rw [List.length_drop]; omega
  cases hcase : raw.drop p with
  | nil => simp [readU16, hcase] at h
  | cons b0 t =>
    cases t with
    | nil => simp [readU16, hcase] at h
    | cons b1 t2 =>
      rw [hcase] at hl
      simp only [List.length_cons] at hl
      omega

theorem loop_of_specSpans {parse_ok : List ℕ → Bool} {raw : List ℕ} :
    ∀ {p spans}, SpecSpans raw p spans →
      (∀ s ∈ spans, parse_ok (chunkOfSpan raw s).data = true) →
      ∀ fuel acc, spans.length < fuel →
      load_spectra_loop parse_ok raw fuel p acc =
        some (acc ++ spans.map (chunkOfSpan raw), none) := by
  intro p spans h
  induction h with
  | done =>
    intro _ fuel acc hf
    cases fuel with
    | zero => simp at hf
    | succ f => simp [load_spectra_loop]
  | step p n rest hp hn h2 hfit ht ih =>
    intro hdec fuel acc hf
    cases fuel with
    | zero => simp at hf
    | succ f =>
      have hne : ¬ raw.length = p := by omega
      have hr : readU16 raw p = some n := by
        rw [readU16_of_le raw p hp, ← hn]
      have hpk : parse_ok ((raw.drop p).take n) = true :=
        hdec (p, n) (by simp)
      rw [load_spectra_loop, if_neg hne, hr]
      show (if parse_ok ((raw.drop p).take n) = true then
          load_spectra_loop parse_ok raw f (p + n)
            (acc ++ [⟨p, n, (raw.drop p).take n⟩])
        else some (acc, some SplitError.decodeError)) = _
      rw [if_pos hpk,
        ih (fun s hs => hdec s (List.mem_cons_of_mem _ hs)) f _
          (by simpa using Nat.lt_of_succ_lt_succ hf)]
      simp [chunkOfSpan]

theorem specSpans_sum {raw : List ℕ} :
    ∀ {p spans}, SpecSpans raw p spans →
      p + (spans.map Prod.snd).sum = raw.length := by
  intro p spans h
  induction h with
  | done => simp
  | step p n rest hp hn h2 hfit ht ih =>
    simp only [List.map_cons, List.sum_cons] at ih ⊢
    omega

theorem readU16_append (raw l2 : List ℕ) (p : ℕ) (h : p + 2 ≤ raw.length) :
    readU16 (raw ++ l2) p = readU16 raw p := by
  have hd : (raw ++ l2).drop p = raw.drop p ++ l2 := by
    rw [List.drop_append_eq_append_drop, Nat.sub_eq_zero_of_le (by omega),
      List.drop_zero]
  have hl : 2 ≤ (raw.drop p).length := by
    rw [List.length_drop]; omega
  cases hcase : raw.drop p with
  | nil => rw [hcase] at hl; simp at hl
  | cons b0 t =>
    cases t with
    | nil => rw [hcase] at hl; simp at hl
    | cons b1 t2 =>
      rw [hcase] at hd
      simp [readU16, hd, hcase]

theorem loop_append_one_of_specSpans {parse_ok : List ℕ → Bool}
    {raw : List ℕ} {b : ℕ} :
    ∀ {p spans}, SpecSpans raw p spans →
      (∀ s ∈ spans, parse_ok (chunkOfSpan (raw ++ [b]) s).data = true) →
      ∀ fuel acc, spans.length < fuel →
      load_spectra_loop parse_ok (raw ++ [b]) fuel p acc =
        some (acc ++ spans.map (chunkOfSpan (raw ++ [b])),
          some SplitError.truncated) := by
  intro p spans h
  induction h with
  | done =>
    intro _ fuel acc hf
    cases fuel with
    | zero => simp at hf
    | succ f =>
      have hne : ¬ (raw ++ [b]).length = raw.length := by simp
      have hr : readU16 (raw ++ [b]) raw.length = none := by
        have hd : (raw ++ [b]).drop raw.length = [b] := by
          rw [List.drop_append_eq_append_drop, Nat.sub_self, List.drop_zero,
            List.drop_length, List.nil_append]
        simp [readU16, hd]
      rw [load_spectra_loop, if_neg hne, hr]
      simp
  | step p n rest hp hn h2 hfit ht ih =>
    intro hdec fuel acc hf
    cases fuel with
    | zero => simp at hf
    | succ f =>
      have hne : ¬ (raw ++ [b]).length = p := by
        simp only [List.length_append, List.length_cons, List.length_nil]
        omega
      have hr : readU16 (raw ++ [b]) p = some n := by
        rw [readU16_append raw [b] p hp, readU16_of_le raw p hp, ← hn]
      have hpk : parse_ok (((raw ++ [b]).drop p).take n) = true :=
        hdec (p, n) (by simp)
      rw [load_spectra_loop, if_neg hne, hr]
      show (if parse_ok (((raw ++ [b]).drop p).take n) = true then
          load_spectra_loop parse_ok (raw ++ [b]) f (p + n)
            (acc ++ [⟨p, n, ((raw ++ [b]).drop p).take n⟩])
        else some (acc, some SplitError.decodeError)) = _
      rw [if_pos hpk,
        ih (fun s hs => hdec s (List.mem_cons_of_mem _ hs)) f _
          (by simpa using Nat.lt_of_succ_lt_succ hf)]
      simp [chunkOfSpan]

/-- Every run of the loading loop exits within `raw.length + 1` iterations,
for any decoder that rejects the empty chunk (the spec's decoder does: an
empty chunk is shorter than the fixed header, `InsufficientBytes`): an
iteration either exits — normal exit at the buffer end, `struct.error` on a
short prefix read, or a decode error — or advances `byte_pointer` by
`chunk_size ≥ 1`. -/
theorem loop_exits (parse_ok : List ℕ → Bool) (hempty : parse_ok [] = false)
    (raw : List ℕ) :
    ∀ (fuel byte_pointer : ℕ) (acc : List Chunk),
      raw.length - byte_pointer < fuel →
      load_spectra_loop parse_ok raw fuel byte_pointer acc ≠ none := by
  intro fuel
  induction fuel with
  | zero => intro p acc h; exact absurd h (Nat.not_lt_zero _)
  | succ f ih =>
    intro p acc h
    rw [load_spectra_loop]
    by_cases hc : raw.length = p
    · simp [hc]
    · rw [if_neg hc]
      cases hr : readU16 raw p with
      | none => simp
      | some n =>
        have hp2 : p + 2 ≤ raw.length := readU16_some_le hr
        show (if parse_ok ((raw.drop p).take n) = true then
            load_spectra_loop parse_ok raw f (p + n)
              (acc ++ [⟨p, n, (raw.drop p).take n⟩])
          else some (acc, some SplitError.decodeError)) ≠ none
        by_cases hn : n = 0
        · subst hn
          rw [List.take_zero, hempty]
          simp
        · by_cases hpk : parse_ok ((raw.drop p).take n) = true
          · rw [if_pos hpk]
            exact ih (p + n) _ (by omega)
          · rw [if_neg hpk]
            simp

/-! ## Wavelength calibration (MainWindow.px2wl, lines 79-85)

Python floating-point values are modelled as exact rationals; the decimal
literals below are exactly the ones in the source. -/

/-- The VIS-channel coefficient vector `self.wlcoefs_v`
(hypstar_220261_wl_coefs_220105.dat, L coefs), descending powers. -/
def wlcoefs_v : List ℚ :=
  [-3.86230580363333e-12, 1.06280450160733e-09, 3.49165721007352e-05,
    0.436208228946683, 165.131629776554]

/-- The SWIR-channel coefficient vector `self.wlcoefs_s`, descending
powers. -/
def wlcoefs_s : List ℚ :=
  [-4.30538111771684e-10, -1.4090756944986e-06, -0.00149472890559243,
    3.63649691365231, 875.424427118224]

/-- Evaluation of `numpy.poly1d(coefs)` at `x`: Horner's scheme over the
coefficient list given in descending power order. -/
def poly1d (coefs : List ℚ) (x : ℚ) : ℚ :=
  coefs.foldl (fun acc c => acc * x + c) 0

/-- `MainWindow.px2wl(px, coefs) = numpy.poly1d(coefs)(px)`. -/
def px2wl (px : ℚ) (coefs : List ℚ) : ℚ :=
  poly1d coefs px

/-- Modelled from the spec: the `Radiometer` enum of the external `spectrum`
module (not under `src/`).  The spec lists `VIS` and `SWIR`/NIR variants and
speaks of channels beyond the two whose coefficient vectors are registered;
such an unregistered channel is represented by `OTHER`. -/
inductive Radiometer where
  | VIS
  | SWIR
  | OTHER
deriving DecidableEq, Repr

/-- The coefficient vector `plot_spectrum` (lines 299-304) selects for the
x-axis: `self.wlcoefs_v` when `radiometer == Radiometer.VIS`, and
`self.wlcoefs_s` in every other case (the `else` branch). -/
def plot_coefs (r : Radiometer) : List ℚ :=
  if r = Radiometer.VIS then wlcoefs_v else wlcoefs_s

/-- The wavelength x-axis `plot_spectrum` computes:
`self.px2wl(range(pixel_count), coefs)`, the vectorized evaluation over the
pixel range. -/
def plot_xaxis (r : Radiometer) (pixel_count : ℕ) : List ℚ :=
  (List.range pixel_count).map fun px => px2wl px (plot_coefs r)

/-- The g-force conversion applied to each raw accelerometer statistic for
display in `on_spectrumList_currentChanged` (lines 336-338):
`value * 19.6 / 32768.0`. -/
def accel_to_g (v : ℚ) : ℚ :=
  v * 19.6 / 32768.0

/-! ## Claims about the chunk-splitting loop -/

/-- C1 counterexample: the buffer `[2, 0]` is well-formed in the claim's
sense — its single length prefix `n = 2` satisfies `2 ≤ n` and lands
exactly on the buffer end (`SpecSpans`) — yet the program does not emit its
span: the 2-byte chunk is shorter than the fixed header, so
`Spectrum.parse_raw` raises at chunk 1 and the load aborts with a decode
error, zero records emitted, and the sum of emitted chunk lengths is
`0 ≠ 2`. -/
theorem wellformed_buffer_zero_records_counterexample :
    SpecSpans [2, 0] 0 [(0, 2)] ∧
      load_spectra parse_raw_ok [2, 0] 1 =
        some ([], some SplitError.decodeError) ∧
      (([] : List Chunk) ≠ [(0, 2)].map (chunkOfSpan [2, 0]) ∧
        (0 : ℕ) ≠ [2, 0].length) := by
  refine ⟨?_, by decide, by decide, by decide⟩
  exact SpecSpans.step 0 2 _ (by decide) (by decide) (by decide) (by decide)
    SpecSpans.done

/-- C1 amended: for every well-formed byte buffer (each little-endian
16-bit length prefix `n` satisfies `2 ≤ n` and `cursor + n ≤ buffer
length`, and repeated advancement by `n` lands exactly on the buffer end,
as captured by `SpecSpans raw 0 spans`) all of whose chunks the decoder
also accepts, the loop exits normally and emits exactly the chunks of the
spans `[cursor, cursor+n)` of the cursor algorithm, in cursor order, and
the sum of the emitted chunk lengths equals the buffer size exactly.  The
theorem is generic in the decoder's accepted set `parse_ok`, so it holds in
particular of the real `Spectrum.parse_raw`, whatever its exact accepted
set is. -/
theorem chunk_split_correct_on_wellformed (parse_ok : List ℕ → Bool)
    (raw : List ℕ) (spans : List (ℕ × ℕ)) (h : SpecSpans raw 0 spans)
    (hdec : ∀ s ∈ spans, parse_ok (chunkOfSpan raw s).data = true)
    (fuel : ℕ) (hfuel : spans.length < fuel) :
    load_spectra parse_ok raw fuel =
      some (spans.map (chunkOfSpan raw), none) ∧
      (spans.map Prod.snd).sum = raw.length := by
  constructor
  · have := loop_of_specSpans h hdec fuel [] hfuel
    simpa [load_spectra] using this
  · have := specSpans_sum h
    omega

theorem chunk_split_correct_on_wellformed_witness :
    load_spectra parse_raw_ok headerOnlyChunk 2 =
      some (([(0, 40)] : List (ℕ × ℕ)).map (chunkOfSpan headerOnlyChunk),
        none) ∧
      (([(0, 40)] : List (ℕ × ℕ)).map Prod.snd).sum =
        headerOnlyChunk.length := by
  have hspec : SpecSpans headerOnlyChunk 0 [(0, 40)] :=
    SpecSpans.step 0 40 _ (by decide) (by decide) (by decide) (by decide)
      (by exact SpecSpans.done)
  exact chunk_split_correct_on_wellformed parse_raw_ok headerOnlyChunk
    [(0, 40)] hspec (by decide) 2 (by decide)

/-- C3: the loading loop terminates on every input buffer, for every
decoder that rejects the empty chunk (the spec's decoder does: an empty
chunk is shorter than the fixed header, `InsufficientBytes`): within
`raw.length + 1` iterations the loop has exited, so the sequence of emitted
chunks is finite.  This covers a zero-valued length prefix (the empty chunk
slice makes `parse_raw` raise on the spot) and an overshooting prefix (the
overshot cursor makes the next 2-byte unpack raise `struct.error`). -/
theorem chunk_split_terminates (parse_ok : List ℕ → Bool)
    (hempty : parse_ok [] = false) (raw : List ℕ) :
    load_spectra parse_ok raw (raw.length + 1) ≠ none :=
  loop_exits parse_ok hempty raw (raw.length + 1) 0 [] (by omega)

theorem chunk_split_terminates_witness :
    load_spectra parse_raw_ok [0, 0] 3 ≠ none :=
  chunk_split_terminates parse_raw_ok (by decide) [0, 0]

/-- C4: whenever a length prefix is to be read (the loop condition
`filesize - byte_pointer` is truthy) and fewer than 2 bytes remain at the
cursor (including a cursor that has overshot the end), the loop stops with
the truncated-length-prefix error (`struct.error` of the 2-byte unpack, the
spec's `TruncatedLengthPrefix`), before the decoder is ever reached — the
theorem is generic in `parse_ok`. -/
theorem chunk_split_truncated_on_short_read (parse_ok : List ℕ → Bool)
    (raw : List ℕ) (byte_pointer fuel : ℕ) (acc : List Chunk)
    (hcond : byte_pointer ≠ raw.length)
    (hshort : raw.length - byte_pointer < 2) :
    load_spectra_loop parse_ok raw (fuel + 1) byte_pointer acc =
      some (acc, some SplitError.truncated) := by
  have hr : readU16 raw byte_pointer = none := by
    cases hcase : raw.drop byte_pointer with
    | nil => simp [readU16, hcase]
    | cons b0 t =>
      cases t with
      | nil => simp [readU16, hcase]
      | cons b1 t2 =>
        have hlen : (raw.drop byte_pointer).length = raw.length - byte_pointer :=
          List.length_drop ..
        rw [hcase] at hlen
        simp only [List.length_cons] at hlen
        omega
  rw [load_spectra_loop, if_neg (fun hh => hcond hh.symm), hr]

theorem chunk_split_truncated_on_short_read_witness :
    load_spectra_loop parse_raw_ok [7] 1 0 [] =
      some ([], some SplitError.truncated) :=
  chunk_split_truncated_on_short_read parse_raw_ok [7] 0 0 [] (by decide)
    (by decide)

/-- C5 counterexample: a §8-style decodable 40-byte chunk followed by a
lone stray byte.  Chunk 1 decodes and is appended; the next iteration fails
the 2-byte unpack (a chunk-splitting error), yet the accumulated record
list `self.spectra_list` is NOT empty after the failed load: it still holds
the record decoded before the error.  The source has no exception handling
that would discard the partial list. -/
theorem corrupt_load_partial_list_counterexample :
    load_spectra parse_raw_ok (headerOnlyChunk ++ [9]) 2 =
      some ([⟨0, 40, headerOnlyChunk⟩], some SplitError.truncated) ∧
      ([⟨0, 40, headerOnlyChunk⟩] : List Chunk) ≠ [] := by
  exact ⟨by decide, by decide⟩

/-- C5 amended: a corrupt file does not yield zero records when the failure
strikes after at least one chunk has decoded — the records decoded before
the failure stay in the accumulated list.  For every well-formed buffer all
of whose chunks the decoder accepts, extended by one stray trailing byte,
the load fails with the truncated error and the list after the failed load
holds exactly the chunks of the well-formed part (one record per chunk
decoded before the error), not the empty list. -/
theorem corrupt_load_keeps_partial_list (parse_ok : List ℕ → Bool)
    (raw : List ℕ) (spans : List (ℕ × ℕ)) (h : SpecSpans raw 0 spans)
    (b : ℕ)
    (hdec : ∀ s ∈ spans, parse_ok (chunkOfSpan (raw ++ [b]) s).data = true)
    (fuel : ℕ) (hfuel : spans.length < fuel) :
    load_spectra parse_ok (raw ++ [b]) fuel =
      some (spans.map (chunkOfSpan (raw ++ [b])), some SplitError.truncated) := by
  have := loop_append_one_of_specSpans h hdec fuel [] hfuel
  simpa [load_spectra] using this

theorem corrupt_load_keeps_partial_list_witness :
    load_spectra parse_raw_ok (headerOnlyChunk ++ [7]) 2 =
      some (([(0, 40)] : List (ℕ × ℕ)).map (chunkOfSpan (headerOnlyChunk ++ [7])),
        some SplitError.truncated) := by
  have hspec : SpecSpans headerOnlyChunk 0 [(0, 40)] :=
    SpecSpans.step 0 40 _ (by decide) (by decide) (by decide) (by decide)
      (by exact SpecSpans.done)
  exact corrupt_load_keeps_partial_list parse_raw_ok headerOnlyChunk
    [(0, 40)] hspec 7 (by decide) 2 (by decide)

/-- C10: on the empty byte buffer the loop condition
`filesize - byte_pointer` is 0 at once, so the loop body runs zero times
(fuel 1, one condition check, already suffices, and any larger fuel gives
the same result) and the load exits normally with an empty record list and
no error; the decoder is never reached, so the result is generic in
`parse_ok`. -/
theorem empty_buffer_loads_empty (parse_ok : List ℕ → Bool) (fuel : ℕ) :
    load_spectra parse_ok [] (fuel + 1) = some ([], none) := by
  simp [load_spectra, load_spectra_loop]

/-! ## Claims about the wavelength calibration -/

/-- C6 counterexample: for the unregistered channel `OTHER` the plotting
code does not return any "calibration unavailable" outcome — the `else`
branch of `plot_spectrum` silently substitutes the SWIR channel's
coefficient vector and produces a numeric wavelength axis from it
(`875.424427118224` nm at pixel 0, the SWIR constant coefficient). -/
theorem unregistered_channel_counterexample :
    plot_coefs Radiometer.OTHER = wlcoefs_s ∧
      plot_xaxis Radiometer.OTHER 1 = [(875.424427118224 : ℚ)] := by
  constructor
  · rfl
  · have h : plot_coefs Radiometer.OTHER = wlcoefs_s := rfl
    norm_num [plot_xaxis, h, px2wl, poly1d, wlcoefs_s, List.range_succ]

/-- C6 amended: every channel other than `VIS` — the registered `SWIR`
channel and unregistered channels alike — is plotted with the SWIR
coefficient vector `wlcoefs_s`; the code has no "calibration unavailable"
outcome, and the raw-pixel-index fallback is governed solely by the
wavelength-scale checkbox, not by the channel. -/
theorem non_vis_channel_uses_swir_coefs (r : Radiometer)
    (h : r ≠ Radiometer.VIS) :
    plot_coefs r = wlcoefs_s := by
  simp [plot_coefs, h]

theorem non_vis_channel_uses_swir_coefs_witness :
    plot_coefs Radiometer.SWIR = wlcoefs_s :=
  non_vis_channel_uses_swir_coefs Radiometer.SWIR (by decide)

/-- C7: for every pixel index `x` and every 5-element coefficient vector,
`px2wl` returns exactly the degree-4 polynomial
`c0*x^4 + c1*x^3 + c2*x^2 + c3*x + c4` (descending power order), both at a
single index and elementwise over the full pixel range
`0..pixel_count-1`. -/
theorem px2wl_is_degree4_poly (c0 c1 c2 c3 c4 x : ℚ) :
    px2wl x [c0, c1, c2, c3, c4] =
      c0 * x ^ 4 + c1 * x ^ 3 + c2 * x ^ 2 + c3 * x + c4 ∧
    ∀ pixel_count : ℕ,
      (List.range pixel_count).map
          (fun px : ℕ => px2wl (px : ℚ) [c0, c1, c2, c3, c4]) =
        (List.range pixel_count).map
          (fun px : ℕ => c0 * (px : ℚ) ^ 4 + c1 * (px : ℚ) ^ 3 +
            c2 * (px : ℚ) ^ 2 + c3 * (px : ℚ) + c4) := by
  have h : ∀ y : ℚ, px2wl y [c0, c1, c2, c3, c4] =
      c0 * y ^ 4 + c1 * y ^ 3 + c2 * y ^ 2 + c3 * y + c4 := by
    intro y
    simp only [px2wl, poly1d, List.foldl_cons, List.foldl_nil]
    ring
  refine ⟨h x, fun pixel_count => ?_⟩
  have hf : (fun px : ℕ => px2wl (px : ℚ) [c0, c1, c2, c3, c4]) =
      (fun px : ℕ => c0 * (px : ℚ) ^ 4 + c1 * (px : ℚ) ^ 3 +
        c2 * (px : ℚ) ^ 2 + c3 * (px : ℚ) + c4) :=
    funext fun y => h y
  rw [hf]

theorem poly_step (c0 c1 c2 c3 c4 x : ℚ) :
    px2wl (x + 1) [c0, c1, c2, c3, c4] - px2wl x [c0, c1, c2, c3, c4] =
      c0 * (4*x^3 + 6*x^2 + 4*x + 1) + c1 * (3*x^2 + 3*x + 1) +
        c2 * (2*x + 1) + c3 := by
  simp only [px2wl, poly1d, List.foldl_cons, List.foldl_nil]
  ring

theorem cubicBound (x M : ℚ) (h0 : 0 ≤ x) (h1 : x ≤ M) :
    4*x^3 + 6*x^2 + 4*x + 1 ≤ 4*M^3 + 6*M^2 + 4*M + 1 := by
  nlinarith [mul_nonneg (mul_nonneg (sub_nonneg.mpr h1) (sub_nonneg.mpr h1)) (sub_nonneg.mpr h1),
    mul_nonneg (mul_nonneg (sub_nonneg.mpr h1) (sub_nonneg.mpr h1)) h0,
    mul_nonneg (mul_nonneg (sub_nonneg.mpr h1) h0) h0,
    mul_nonneg (sub_nonneg.mpr h1) h0, sq_nonneg (M - x), sub_nonneg.mpr h1]

theorem quadBound (x M : ℚ) (h0 : 0 ≤ x) (h1 : x ≤ M) :
    3*x^2 + 3*x + 1 ≤ 3*M^2 + 3*M + 1 := by
  nlinarith [mul_nonneg (sub_nonneg.mpr h1) (sub_nonneg.mpr h1),
    mul_nonneg (sub_nonneg.mpr h1) h0, sub_nonneg.mpr h1]

/-- The wavelength step `px2wl (x+1) - px2wl x` on the VIS vector is
positive for `0 ≤ x ≤ 2046`: the negative quartic coefficient is dominated
by the positive lower-order terms throughout the VIS detector's 2048-pixel
range. -/
theorem vis_delta_pos (x : ℚ) (h0 : 0 ≤ x) (h1 : x ≤ 2046) :
    0 < px2wl (x + 1) wlcoefs_v - px2wl x wlcoefs_v := by
  have hv : wlcoefs_v = [-3.86230580363333e-12, 1.06280450160733e-09,
      3.49165721007352e-05, 0.436208228946683, 165.131629776554] := rfl
  rw [hv, poly_step]
  have hK := cubicBound x 2046 h0 h1
  have hq : (1:ℚ) ≤ 3*x^2 + 3*x + 1 := by nlinarith [mul_nonneg h0 h0]
  have hl : (1:ℚ) ≤ 2*x + 1 := by linarith
  have ha : (-3.86230580363333e-12 : ℚ) ≤ 0 := by norm_num
  have hamul : (-3.86230580363333e-12 : ℚ) * (4*(2046:ℚ)^3 + 6*2046^2 + 4*2046 + 1) ≤
      (-3.86230580363333e-12 : ℚ) * (4*x^3 + 6*x^2 + 4*x + 1) :=
    mul_le_mul_of_nonpos_left hK ha
  have hb : (0:ℚ) ≤ 1.06280450160733e-09 := by norm_num
  have hbmul : (1.06280450160733e-09 : ℚ) * 1 ≤ (1.06280450160733e-09 : ℚ) * (3*x^2 + 3*x + 1) :=
    mul_le_mul_of_nonneg_left hq hb
  have hc : (0:ℚ) ≤ 3.49165721007352e-05 := by norm_num
  have hcmul : (3.49165721007352e-05 : ℚ) * 1 ≤ (3.49165721007352e-05 : ℚ) * (2*x + 1) :=
    mul_le_mul_of_nonneg_left hl hc
  have hnum : (0:ℚ) < (-3.86230580363333e-12 : ℚ) * (4*(2046:ℚ)^3 + 6*2046^2 + 4*2046 + 1) +
      (1.06280450160733e-09 : ℚ) * 1 + (3.49165721007352e-05 : ℚ) * 1 + 0.436208228946683 := by
    norm_num
  linarith

/-- The wavelength step `px2wl (x+1) - px2wl x` on the SWIR vector is
positive for `0 ≤ x ≤ 254`: all three negative derivative coefficients are
dominated by the linear coefficient `3.636…` throughout the SWIR detector's
256-pixel range. -/
theorem swir_delta_pos (x : ℚ) (h0 : 0 ≤ x) (h1 : x ≤ 254) :
    0 < px2wl (x + 1) wlcoefs_s - px2wl x wlcoefs_s := by
  have hs : wlcoefs_s = [-4.30538111771684e-10, -1.4090756944986e-06,
      -0.00149472890559243, 3.63649691365231, 875.424427118224] := rfl
  rw [hs, poly_step]
  have hK1 := cubicBound x 254 h0 h1
  have hK2 := quadBound x 254 h0 h1
  have hK3 : 2*x + 1 ≤ 2*(254:ℚ) + 1 := by linarith
  have ha : (-4.30538111771684e-10 : ℚ) ≤ 0 := by norm_num
  have hb : (-1.4090756944986e-06 : ℚ) ≤ 0 := by norm_num
  have hc : (-0.00149472890559243 : ℚ) ≤ 0 := by norm_num
  have h1m := mul_le_mul_of_nonpos_left hK1 ha
  have h2m := mul_le_mul_of_nonpos_left hK2 hb
  have h3m := mul_le_mul_of_nonpos_left hK3 hc
  have hnum : (0:ℚ) < (-4.30538111771684e-10 : ℚ) * (4*(254:ℚ)^3 + 6*254^2 + 4*254 + 1) +
      (-1.4090756944986e-06 : ℚ) * (3*(254:ℚ)^2 + 3*254 + 1) +
      (-0.00149472890559243 : ℚ) * (2*(254:ℚ) + 1) + 3.63649691365231 := by
    norm_num
  linarith

theorem strict_mono_chain (f : ℕ → ℚ) (N : ℕ)
    (hstep : ∀ i, i < N → f i < f (i + 1)) :
    ∀ x y : ℕ, x < y → y ≤ N → f x < f y := by
  intro x y
  induction y with
  | zero => intro h _; omega
  | succ z ih =>
    intro hxy hyN
    rcases Nat.lt_succ_iff_lt_or_eq.mp hxy with h | h
    · exact (ih h (by omega)).trans (hstep z (by omega))
    · subst h; exact hstep x (by omega)

/-- C8: for each of the two registered coefficient vectors, the wavelength
function is strictly monotonic (here: strictly increasing) in the pixel
index over the physical pixel range of the channel — indices `0..2047` for
the 2048-pixel VIS detector and `0..255` for the 256-pixel SWIR detector
(the pixel counts themselves are not stated in the spec; they are the
detector sizes of the instrument the coefficient vectors calibrate). -/
theorem wl_monotonic_registered :
    (∀ x y : ℕ, x < y → y ≤ 2047 →
      px2wl (x : ℚ) wlcoefs_v < px2wl (y : ℚ) wlcoefs_v) ∧
    (∀ x y : ℕ, x < y → y ≤ 255 →
      px2wl (x : ℚ) wlcoefs_s < px2wl (y : ℚ) wlcoefs_s) := by
  constructor
  · apply strict_mono_chain (fun i : ℕ => px2wl (i : ℚ) wlcoefs_v) 2047
    intro i hi
    have hx0 : (0:ℚ) ≤ (i : ℚ) := Nat.cast_nonneg i
    have hx1 : (i : ℚ) ≤ 2046 := by exact_mod_cast Nat.le_of_lt_succ hi
    have hd := vis_delta_pos (i : ℚ) hx0 hx1
    have hc : ((i + 1 : ℕ) : ℚ) = (i : ℚ) + 1 := by push_cast; ring
    simp only [hc]
    linarith
  · apply strict_mono_chain (fun i : ℕ => px2wl (i : ℚ) wlcoefs_s) 255
    intro i hi
    have hx0 : (0:ℚ) ≤ (i : ℚ) := Nat.cast_nonneg i
    have hx1 : (i : ℚ) ≤ 254 := by exact_mod_cast Nat.le_of_lt_succ hi
    have hd := swir_delta_pos (i : ℚ) hx0 hx1
    have hc : ((i + 1 : ℕ) : ℚ) = (i : ℚ) + 1 := by push_cast; ring
    simp only [hc]
    linarith

theorem wl_monotonic_registered_witness :
    px2wl ((0 : ℕ) : ℚ) wlcoefs_v < px2wl ((1 : ℕ) : ℚ) wlcoefs_v ∧
    px2wl ((0 : ℕ) : ℚ) wlcoefs_s < px2wl ((1 : ℕ) : ℚ) wlcoefs_s :=
  ⟨wl_monotonic_registered.1 0 1 (by omega) (by omega),
   wl_monotonic_registered.2 0 1 (by omega) (by omega)⟩

/-- C9: the g-force conversion applied to each raw accelerometer statistic
is exactly `v * 19.6 / 32768.0`, and the raw value `16384` converts to
exactly `9.8` g. -/
theorem accel_conversion_exact :
    (∀ v : ℤ, accel_to_g (v : ℚ) = (v : ℚ) * 19.6 / 32768.0) ∧
      accel_to_g 16384 = 9.8 ∧ (9.8 : ℚ) = 49 / 5 := by
  refine ⟨fun v => rfl, ?_, by norm_num⟩
  norm_num [accel_to_g]

end BinViewer
